import Mathlib

/-!
Verification of the CapabilityIndex core of `src/capabilities/server.py`.

The discovery pipeline (`_build_package_dict`, `_build_file_index`, the
`list_*_files` enumerators and the per-file parsers) reads the file system and
is treated as an opaque collaborator, exactly as the design document does: it
is modelled as a function from the (possibly absent) package-path argument to
three sequences of parsed records.  Python dictionaries are modelled as
insertion-ordered association lists with unique keys: insertion replaces the
value in place when the key is present and appends otherwise.  Python
truthiness of the `ros_package_path` argument (both `None` and the empty list
are falsy) is modelled explicitly, because `load_from_ros_package_path` branches
on `if not ros_package_path`.
-/

set_option autoImplicit false

/-- A parsed capability interface record: only its `name` is consulted by the
index. -/
structure CapabilityInterface where
  name : String
deriving DecidableEq

/-- A parsed capability provider record: `name` and the `implements` reference
used by `get_providers`. -/
structure CapabilityProvider where
  name : String
  implements : String
deriving DecidableEq

/-- A parsed semantic capability interface record: `name` and the `redefines`
reference used by `get_semantic_interfaces`. -/
structure SemanticCapabilityInterface where
  name : String
  redefines : String
deriving DecidableEq

/-- The outcome of one discovery pass: the three sequences of parsed records
produced by `list_interface_files`, `list_provider_files` and
`list_semantic_interface_files` composed with their per-file parsers. -/
structure DiscoveryResult where
  interface_files : List CapabilityInterface
  provider_files : List CapabilityProvider
  semantic_interface_files : List SemanticCapabilityInterface
deriving DecidableEq

/-- The state of a `CapabilityIndex` object: the stored `_ros_package_path`
and the three name-keyed dictionaries `_interfaces`, `_providers`,
`_semantic_interfaces`. -/
structure CapabilityIndex where
  ros_package_path : Option (List String)
  interfaces : List (String × CapabilityInterface)
  providers : List (String × CapabilityProvider)
  semantic_interfaces : List (String × SemanticCapabilityInterface)
deriving DecidableEq

/-- Python `k in d` on a dictionary modelled as an association list. -/
def dictContains {α : Type} (d : List (String × α)) (k : String) : Bool :=
  d.any (fun p => p.1 == k)

/-- Python `d[k] = v`: replace in place when the key is present, append
otherwise (dictionaries preserve insertion order). -/
def dictInsert {α : Type} (d : List (String × α)) (k : String) (v : α) :
    List (String × α) :=
  if dictContains d k then d.map (fun p => if p.1 == k then (k, v) else p)
  else d ++ [(k, v)]

/-- Python `d[k]` as a partial lookup. -/
def dictLookup {α : Type} : List (String × α) → String → Option α
  | [], _ => none
  | (k, v) :: rest, n => if k == n then some v else dictLookup rest n

/-- Python `d.values()` in insertion order. -/
def dictValues {α : Type} (d : List (String × α)) : List α :=
  d.map Prod.snd

/-- Python truthiness of the `ros_package_path` value: `None` and the empty
list are falsy, a non-empty list is truthy. -/
def pyFalsy : Option (List String) → Bool
  | none => true
  | some l => l.isEmpty

/-- The `type_name` string passed for interface records. -/
def kind_interface : String := "interface"

/-- The `type_name` string passed for provider records. -/
def kind_provider : String := "provider"

/-- The `type_name` string passed for semantic interface records. -/
def kind_semantic_interface : String := "semantic_interface"

/-- `CapabilityIndex._check_name`: returns `true` when the name is accepted,
i.e. when it occurs in none of the three dictionaries.  The `type_name`
argument only feeds the diagnostic messages. -/
def _check_name (idx : CapabilityIndex) (name : String) (type_name : String) :
    Bool :=
  let error :=
    if dictContains idx.interfaces name then true
    else if dictContains idx.providers name then true
    else if dictContains idx.semantic_interfaces name then true
    else false
  error == false

/-- The first loop of `load_from_ros_package_path`: for each parsed interface,
skip it when `_check_name` rejects the name, otherwise store it under its own
name. -/
def loadInterfaces : CapabilityIndex → List CapabilityInterface →
    CapabilityIndex
  | idx, [] => idx
  | idx, i :: rest =>
    if _check_name idx i.name kind_interface then
      loadInterfaces
        { idx with interfaces := dictInsert idx.interfaces i.name i } rest
    else
      loadInterfaces idx rest

/-- The second loop of `load_from_ros_package_path`, over provider records. -/
def loadProviders : CapabilityIndex → List CapabilityProvider → CapabilityIndex
  | idx, [] => idx
  | idx, p :: rest =>
    if _check_name idx p.name kind_provider then
      loadProviders
        { idx with providers := dictInsert idx.providers p.name p } rest
    else
      loadProviders idx rest

/-- The third loop of `load_from_ros_package_path`, over semantic interface
records. -/
def loadSemanticInterfaces : CapabilityIndex →
    List SemanticCapabilityInterface → CapabilityIndex
  | idx, [] => idx
  | idx, s :: rest =>
    if _check_name idx s.name kind_semantic_interface then
      loadSemanticInterfaces
        { idx with
            semantic_interfaces := dictInsert idx.semantic_interfaces s.name s }
        rest
    else
      loadSemanticInterfaces idx rest

/-- `CapabilityIndex._initialize_capabilities` (named without the full source
spelling): reset the three dictionaries to empty. -/
def _init_capabilities (idx : CapabilityIndex) : CapabilityIndex :=
  { idx with interfaces := [], providers := [], semantic_interfaces := [] }

/-- The package path actually used by one call of
`load_from_ros_package_path`: the code executes `if not ros_package_path:
ros_package_path = self._ros_package_path`, so any falsy argument (absent,
`None`, or the empty list) falls back to the stored path. -/
def effective_path (idx : CapabilityIndex) (arg : Option (List String)) :
    Option (List String) :=
  if pyFalsy arg then idx.ros_package_path else arg

/-- `CapabilityIndex.load_from_ros_package_path`, with discovery abstracted as
`discover`.  A truthy argument overrides the stored `_ros_package_path`; the
three dictionaries are cleared and repopulated from the discovery result in
the fixed order interfaces, providers, semantic interfaces. -/
def load_from_ros_package_path
    (discover : Option (List String) → DiscoveryResult)
    (idx : CapabilityIndex) (arg : Option (List String)) : CapabilityIndex :=
  let path := effective_path idx arg
  let idx1 := { idx with ros_package_path := path }
  let idx2 := _init_capabilities idx1
  let caps := discover path
  let idx3 := loadInterfaces idx2 caps.interface_files
  let idx4 := loadProviders idx3 caps.provider_files
  loadSemanticInterfaces idx4 caps.semantic_interface_files

/-- `CapabilityIndex.__init__`: store the argument, start with empty
dictionaries, then perform a full load with the same argument. -/
def construct (discover : Option (List String) → DiscoveryResult)
    (ros_package_path : Option (List String)) : CapabilityIndex :=
  load_from_ros_package_path discover
    ⟨ros_package_path, [], [], []⟩ ros_package_path

/-- `CapabilityIndex.get_interfaces`. -/
def get_interfaces (idx : CapabilityIndex) : List CapabilityInterface :=
  dictValues idx.interfaces

/-- `CapabilityIndex.get_providers`: the providers whose `implements` equals
the queried interface name. -/
def get_providers (idx : CapabilityIndex) (interface_name : String) :
    List CapabilityProvider :=
  (dictValues idx.providers).filter (fun p => p.implements == interface_name)

/-- `CapabilityIndex.get_semantic_interfaces`: the semantic interfaces whose
`redefines` equals the queried interface name. -/
def get_semantic_interfaces (idx : CapabilityIndex) (interface_name : String) :
    List SemanticCapabilityInterface :=
  (dictValues idx.semantic_interfaces).filter
    (fun p => p.redefines == interface_name)

/-- The Python exceptions relevant to the stub operations. -/
inductive PyExc where
  | TypeError
  | NotImplementedError
deriving DecidableEq

/-- The value mentioned by a `raise` statement in the stubs: either the
builtin `NotImplemented` sentinel (which is *not* a `BaseException`) or an
actual exception. -/
inductive PyVal where
  | notImplementedSentinel
  | exc : PyExc → PyVal
deriving DecidableEq

/-- Whether a raised value is a `BaseException` (class or instance). -/
def isBaseException : PyVal → Bool
  | PyVal.notImplementedSentinel => false
  | PyVal.exc _ => true

/-- The exception produced by executing `raise v` in Python: raising a value
that is not a `BaseException` raises `TypeError` instead. -/
def pyRaise (v : PyVal) : PyExc :=
  if isBaseException v then
    match v with
    | PyVal.exc e => e
    | PyVal.notImplementedSentinel => PyExc.TypeError
  else PyExc.TypeError

/-- `CapabilityIndex.verify_tree`: its body is `raise NotImplemented`, the
sentinel, not the `NotImplementedError` exception. -/
def verify_tree (_idx : CapabilityIndex) : Except PyExc Unit :=
  Except.error (pyRaise PyVal.notImplementedSentinel)

/-- `CapabilityIndex.view_capabilities_as_dot`: body `raise NotImplemented`. -/
def view_capabilities_as_dot (_idx : CapabilityIndex) (_with_errors : Bool) :
    Except PyExc Unit :=
  Except.error (pyRaise PyVal.notImplementedSentinel)

/-- `CapabilityIndex.advertize_services`: body `raise NotImplemented`. -/
def advertize_services (_idx : CapabilityIndex) : Except PyExc Unit :=
  Except.error (pyRaise PyVal.notImplementedSentinel)

/-- Invariant I1 of the design: no name occurs in two of the three
dictionaries. -/
def namesDisjoint (idx : CapabilityIndex) : Prop :=
  ∀ n : String,
    (dictContains idx.interfaces n && dictContains idx.providers n) = false ∧
    (dictContains idx.interfaces n &&
      dictContains idx.semantic_interfaces n) = false ∧
    (dictContains idx.providers n &&
      dictContains idx.semantic_interfaces n) = false

/-- Every entry of every dictionary is keyed by the stored record's own
`name` field. -/
def wellKeyed (idx : CapabilityIndex) : Bool :=
  idx.interfaces.all (fun e => e.2.name == e.1) &&
  idx.providers.all (fun e => e.2.name == e.1) &&
  idx.semantic_interfaces.all (fun e => e.2.name == e.1)

/-- A discovery collaborator that finds nothing. -/
def discoverNothing : Option (List String) → DiscoveryResult :=
  fun _ => ⟨[], [], []⟩

/-- The scenario fixture of the design document: one interface `Minimal` and
two providers `P1`, `P2` implementing it. -/
def discoverMinimal : Option (List String) → DiscoveryResult :=
  fun _ =>
    ⟨[⟨"Minimal"⟩],
     [⟨"P1", "Minimal"⟩, ⟨"P2", "Minimal"⟩],
     []⟩

/-- The collision fixture of the design document: an interface and a provider
both named `Minimal`. -/
def discoverCollision : Option (List String) → DiscoveryResult :=
  fun _ => ⟨[⟨"Minimal"⟩], [⟨"Minimal", "Foo"⟩], []⟩

/-- A fresh, never-loaded index state. -/
def emptyIndex : CapabilityIndex := ⟨none, [], [], []⟩

/-- An index loaded from the `discoverMinimal` fixture. -/
def exampleIndex : CapabilityIndex :=
  construct discoverMinimal (some ["/pkgs/a"])

/-- Name constant used in concrete checks. -/
def nA : String := "A"

/-- Name constant used in concrete checks. -/
def nMinimal : String := "Minimal"

/-- Name constant used in concrete checks: an interface name that matches no
provider of the `discoverMinimal` fixture. -/
def nNoSuch : String := "NoSuchInterface"

/-- Discovery yielding two provider files that share the name `A` but differ
in their `implements` field. -/
def discoverDupProviders : Option (List String) → DiscoveryResult :=
  fun _ => ⟨[], [⟨"A", "I1"⟩, ⟨"A", "I2"⟩], []⟩

/-- An index whose stored roots are `["/a"]`. -/
def idxWithRootsA : CapabilityIndex := ⟨some ["/a"], [], [], []⟩

/-- An index already holding a provider named `A`. -/
def idxWithProviderA : CapabilityIndex :=
  ⟨none, [], [("A", ⟨"A", "I1"⟩)], []⟩

/-- An index already holding an interface named `A`. -/
def idxWithInterfaceA : CapabilityIndex :=
  ⟨none, [("A", ⟨"A"⟩)], [], []⟩

/-- Name constant used in concrete checks. -/
def nB : String := "B"

/-- Name constant used in concrete checks. -/
def nC : String := "C"

/-- An index holding one record of each kind, under distinct names. -/
def idxAllKinds : CapabilityIndex :=
  ⟨none, [("A", ⟨"A"⟩)], [("B", ⟨"B", "I1"⟩)], [("C", ⟨"C", "R1"⟩)]⟩

theorem dictContains_nil {α : Type} (n : String) :
    dictContains ([] : List (String × α)) n = false := rfl

theorem dictContains_cons {α : Type} (a : String × α) (t : List (String × α))
    (n : String) :
    dictContains (a :: t) n = (a.1 == n || dictContains t n) := rfl

theorem dictContains_map_replace {α : Type} (d : List (String × α))
    (k n : String) (v : α) :
    dictContains (d.map (fun p => if p.1 == k then (k, v) else p)) n =
      dictContains d n := by
  induction d with
  | nil => rfl
  | cons a t ih =>
    obtain ⟨a1, a2⟩ := a
    rw [List.map_cons, dictContains_cons, dictContains_cons]
    by_cases h : (a1 == k) = true
    · have hak : a1 = k := eq_of_beq h
      subst hak
      rw [if_pos h, ih]
    · rw [if_neg h, ih]

theorem dictContains_insert {α : Type} (d : List (String × α)) (k n : String)
    (v : α) :
    dictContains (dictInsert d k v) n = (dictContains d n || (k == n)) := by
  unfold dictInsert
  by_cases h : dictContains d k = true
  · rw [if_pos h, dictContains_map_replace]
    by_cases hkn : (k == n) = true
    · have hk : k = n := eq_of_beq hkn
      subst hk
      simp [h]
    · simp [hkn]
  · rw [if_neg h]
    simp [dictContains, List.any_append]

theorem dictLookup_map_replace {α : Type} (d : List (String × α))
    (k n : String) (v : α) (h : (k == n) = false) :
    dictLookup (d.map (fun p => if p.1 == k then (k, v) else p)) n =
      dictLookup d n := by
  induction d with
  | nil => rfl
  | cons a t ih =>
    obtain ⟨a1, a2⟩ := a
    rw [List.map_cons]
    by_cases ha : (a1 == k) = true
    · have hak : a1 = k := eq_of_beq ha
      subst hak
      rw [if_pos ha]
      simp only [dictLookup]
      rw [if_neg (by simp [h]), if_neg (by simp [h])]
      exact ih
    · rw [if_neg ha]
      simp only [dictLookup]
      by_cases han : (a1 == n) = true
      · rw [if_pos han, if_pos han]
      · rw [if_neg han, if_neg han]
        exact ih

theorem dictLookup_append_ne {α : Type} (d : List (String × α))
    (k n : String) (v : α) (h : (k == n) = false) :
    dictLookup (d ++ [(k, v)]) n = dictLookup d n := by
  induction d with
  | nil =>
    simp only [List.nil_append, dictLookup]
    rw [if_neg (by simp [h])]
  | cons a t ih =>
    obtain ⟨a1, a2⟩ := a
    rw [List.cons_append]
    simp only [dictLookup]
    by_cases han : (a1 == n) = true
    · rw [if_pos han, if_pos han]
    · rw [if_neg han, if_neg han]
      exact ih

theorem dictLookup_insert_ne {α : Type} (d : List (String × α)) (k n : String)
    (v : α) (h : (k == n) = false) :
    dictLookup (dictInsert d k v) n = dictLookup d n := by
  unfold dictInsert
  by_cases hc : dictContains d k = true
  · rw [if_pos hc]
    exact dictLookup_map_replace d k n v h
  · rw [if_neg hc]
    exact dictLookup_append_ne d k n v h

theorem check_name_eq_true (idx : CapabilityIndex) (n t : String) :
    _check_name idx n t = true ↔
      (dictContains idx.interfaces n = false ∧
       dictContains idx.providers n = false ∧
       dictContains idx.semantic_interfaces n = false) := by
  unfold _check_name
  by_cases h1 : dictContains idx.interfaces n = true
  · simp [h1]
  · by_cases h2 : dictContains idx.providers n = true
    · simp [h1, h2]
    · by_cases h3 : dictContains idx.semantic_interfaces n = true
      · simp [h1, h2, h3]
      · simp [h1, h2, h3]

theorem loadInterfaces_ros (idx : CapabilityIndex)
    (l : List CapabilityInterface) :
    (loadInterfaces idx l).ros_package_path = idx.ros_package_path := by
  induction l generalizing idx with
  | nil => rfl
  | cons i rest ih =>
    unfold loadInterfaces
    by_cases h : _check_name idx i.name kind_interface = true
    · rw [if_pos h]
      exact ih _
    · rw [if_neg h]
      exact ih _

theorem loadInterfaces_providers (idx : CapabilityIndex)
    (l : List CapabilityInterface) :
    (loadInterfaces idx l).providers = idx.providers := by
  induction l generalizing idx with
  | nil => rfl
  | cons i rest ih =>
    unfold loadInterfaces
    by_cases h : _check_name idx i.name kind_interface = true
    · rw [if_pos h]
      exact ih _
    · rw [if_neg h]
      exact ih _

theorem loadInterfaces_semantic (idx : CapabilityIndex)
    (l : List CapabilityInterface) :
    (loadInterfaces idx l).semantic_interfaces = idx.semantic_interfaces := by
  induction l generalizing idx with
  | nil => rfl
  | cons i rest ih =>
    unfold loadInterfaces
    by_cases h : _check_name idx i.name kind_interface = true
    · rw [if_pos h]
      exact ih _
    · rw [if_neg h]
      exact ih _

theorem loadProviders_ros (idx : CapabilityIndex)
    (l : List CapabilityProvider) :
    (loadProviders idx l).ros_package_path = idx.ros_package_path := by
  induction l generalizing idx with
  | nil => rfl
  | cons p rest ih =>
    unfold loadProviders
    by_cases h : _check_name idx p.name kind_provider = true
    · rw [if_pos h]
      exact ih _
    · rw [if_neg h]
      exact ih _

theorem loadProviders_interfaces (idx : CapabilityIndex)
    (l : List CapabilityProvider) :
    (loadProviders idx l).interfaces = idx.interfaces := by
  induction l generalizing idx with
  | nil => rfl
  | cons p rest ih =>
    unfold loadProviders
    by_cases h : _check_name idx p.name kind_provider = true
    · rw [if_pos h]
      exact ih _
    · rw [if_neg h]
      exact ih _

theorem loadProviders_semantic (idx : CapabilityIndex)
    (l : List CapabilityProvider) :
    (loadProviders idx l).semantic_interfaces = idx.semantic_interfaces := by
  induction l generalizing idx with
  | nil => rfl
  | cons p rest ih =>
    unfold loadProviders
    by_cases h : _check_name idx p.name kind_provider = true
    · rw [if_pos h]
      exact ih _
    · rw [if_neg h]
      exact ih _

theorem loadSemanticInterfaces_ros (idx : CapabilityIndex)
    (l : List SemanticCapabilityInterface) :
    (loadSemanticInterfaces idx l).ros_package_path = idx.ros_package_path := by
  induction l generalizing idx with
  | nil => rfl
  | cons s rest ih =>
    unfold loadSemanticInterfaces
    by_cases h : _check_name idx s.name kind_semantic_interface = true
    · rw [if_pos h]
      exact ih _
    · rw [if_neg h]
      exact ih _

theorem loadSemanticInterfaces_interfaces (idx : CapabilityIndex)
    (l : List SemanticCapabilityInterface) :
    (loadSemanticInterfaces idx l).interfaces = idx.interfaces := by
  induction l generalizing idx with
  | nil => rfl
  | cons s rest ih =>
    unfold loadSemanticInterfaces
    by_cases h : _check_name idx s.name kind_semantic_interface = true
    · rw [if_pos h]
      exact ih _
    · rw [if_neg h]
      exact ih _

theorem loadSemanticInterfaces_providers (idx : CapabilityIndex)
    (l : List SemanticCapabilityInterface) :
    (loadSemanticInterfaces idx l).providers = idx.providers := by
  induction l generalizing idx with
  | nil => rfl
  | cons s rest ih =>
    unfold loadSemanticInterfaces
    by_cases h : _check_name idx s.name kind_semantic_interface = true
    · rw [if_pos h]
      exact ih _
    · rw [if_neg h]
      exact ih _

theorem loadInterfaces_disjoint (l : List CapabilityInterface) :
    ∀ idx : CapabilityIndex, namesDisjoint idx →
      namesDisjoint (loadInterfaces idx l) := by
  induction l with
  | nil => intro idx h; exact h
  | cons i rest ih =>
    intro idx h
    unfold loadInterfaces
    by_cases hc : _check_name idx i.name kind_interface = true
    · rw [if_pos hc]
      apply ih
      obtain ⟨h1, h2, h3⟩ := (check_name_eq_true idx i.name kind_interface).mp hc
      intro n
      obtain ⟨d1, d2, d3⟩ := h n
      refine ⟨?_, ?_, d3⟩
      · show (dictContains (dictInsert idx.interfaces i.name i) n &&
          dictContains idx.providers n) = false
        rw [dictContains_insert]
        cases hb : (i.name == n) with
        | true =>
          have hn : i.name = n := eq_of_beq hb
          subst hn
          simp [h2]
        | false =>
          simp only [Bool.or_false]
          exact d1
      · show (dictContains (dictInsert idx.interfaces i.name i) n &&
          dictContains idx.semantic_interfaces n) = false
        rw [dictContains_insert]
        cases hb : (i.name == n) with
        | true =>
          have hn : i.name = n := eq_of_beq hb
          subst hn
          simp [h3]
        | false =>
          simp only [Bool.or_false]
          exact d2
    · rw [if_neg hc]
      exact ih idx h

theorem loadProviders_disjoint (l : List CapabilityProvider) :
    ∀ idx : CapabilityIndex, namesDisjoint idx →
      namesDisjoint (loadProviders idx l) := by
  induction l with
  | nil => intro idx h; exact h
  | cons p rest ih =>
    intro idx h
    unfold loadProviders
    by_cases hc : _check_name idx p.name kind_provider = true
    · rw [if_pos hc]
      apply ih
      obtain ⟨h1, h2, h3⟩ := (check_name_eq_true idx p.name kind_provider).mp hc
      intro n
      obtain ⟨d1, d2, d3⟩ := h n
      refine ⟨?_, d2, ?_⟩
      · show (dictContains idx.interfaces n &&
          dictContains (dictInsert idx.providers p.name p) n) = false
        rw [dictContains_insert]
        cases hb : (p.name == n) with
        | true =>
          have hn : p.name = n := eq_of_beq hb
          subst hn
          simp [h1]
        | false =>
          simp only [Bool.or_false]
          exact d1
      · show (dictContains (dictInsert idx.providers p.name p) n &&
          dictContains idx.semantic_interfaces n) = false
        rw [dictContains_insert]
        cases hb : (p.name == n) with
        | true =>
          have hn : p.name = n := eq_of_beq hb
          subst hn
          simp [h3]
        | false =>
          simp only [Bool.or_false]
          exact d3
    · rw [if_neg hc]
      exact ih idx h

theorem loadSemanticInterfaces_disjoint (l : List SemanticCapabilityInterface) :
    ∀ idx : CapabilityIndex, namesDisjoint idx →
      namesDisjoint (loadSemanticInterfaces idx l) := by
  induction l with
  | nil => intro idx h; exact h
  | cons s rest ih =>
    intro idx h
    unfold loadSemanticInterfaces
    by_cases hc : _check_name idx s.name kind_semantic_interface = true
    · rw [if_pos hc]
      apply ih
      obtain ⟨h1, h2, h3⟩ :=
        (check_name_eq_true idx s.name kind_semantic_interface).mp hc
      intro n
      obtain ⟨d1, d2, d3⟩ := h n
      refine ⟨d1, ?_, ?_⟩
      · show (dictContains idx.interfaces n &&
          dictContains (dictInsert idx.semantic_interfaces s.name s) n) = false
        rw [dictContains_insert]
        cases hb : (s.name == n) with
        | true =>
          have hn : s.name = n := eq_of_beq hb
          subst hn
          simp [h1]
        | false =>
          simp only [Bool.or_false]
          exact d2
      · show (dictContains idx.providers n &&
          dictContains (dictInsert idx.semantic_interfaces s.name s) n) = false
        rw [dictContains_insert]
        cases hb : (s.name == n) with
        | true =>
          have hn : s.name = n := eq_of_beq hb
          subst hn
          simp [h2]
        | false =>
          simp only [Bool.or_false]
          exact d3
    · rw [if_neg hc]
      exact ih idx h

theorem namesDisjoint_load
    (discover : Option (List String) → DiscoveryResult)
    (idx : CapabilityIndex) (arg : Option (List String)) :
    namesDisjoint (load_from_ros_package_path discover idx arg) := by
  simp only [load_from_ros_package_path]
  apply loadSemanticInterfaces_disjoint
  apply loadProviders_disjoint
  apply loadInterfaces_disjoint
  intro n
  exact ⟨rfl, rfl, rfl⟩

theorem loadInterfaces_contains_mono (l : List CapabilityInterface) :
    ∀ idx : CapabilityIndex, ∀ X : String,
      dictContains idx.interfaces X = true →
      dictContains (loadInterfaces idx l).interfaces X = true := by
  induction l with
  | nil => intro idx X h; exact h
  | cons i rest ih =>
    intro idx X h
    unfold loadInterfaces
    by_cases hc : _check_name idx i.name kind_interface = true
    · rw [if_pos hc]
      apply ih
      show dictContains (dictInsert idx.interfaces i.name i) X = true
      rw [dictContains_insert, h]
      rfl
    · rw [if_neg hc]
      exact ih idx X h

theorem loadInterfaces_contains_of_any (l : List CapabilityInterface) :
    ∀ idx : CapabilityIndex, ∀ X : String,
      dictContains idx.providers X = false →
      dictContains idx.semantic_interfaces X = false →
      (l.any (fun i => i.name == X)) = true →
      dictContains (loadInterfaces idx l).interfaces X = true := by
  induction l with
  | nil =>
    intro idx X _ _ hm
    exact absurd hm (by simp)
  | cons i rest ih =>
    intro idx X hp hs hm
    cases hb : (i.name == X) with
    | true =>
      have hiX : i.name = X := eq_of_beq hb
      subst hiX
      cases hI : dictContains idx.interfaces i.name with
      | true => exact loadInterfaces_contains_mono (i :: rest) idx i.name hI
      | false =>
        have hc : _check_name idx i.name kind_interface = true :=
          (check_name_eq_true idx i.name kind_interface).mpr ⟨hI, hp, hs⟩
        unfold loadInterfaces
        rw [if_pos hc]
        apply loadInterfaces_contains_mono
        show dictContains (dictInsert idx.interfaces i.name i) i.name = true
        rw [dictContains_insert]
        simp
    | false =>
      have hm' : (rest.any (fun i => i.name == X)) = true := by
        rw [List.any_cons, hb] at hm
        simpa using hm
      unfold loadInterfaces
      by_cases hc : _check_name idx i.name kind_interface = true
      · rw [if_pos hc]
        exact ih _ X hp hs hm'
      · rw [if_neg hc]
        exact ih idx X hp hs hm'

theorem loadProviders_blocked (l : List CapabilityProvider) :
    ∀ idx : CapabilityIndex, ∀ X : String,
      dictContains idx.interfaces X = true →
      dictContains idx.providers X = false →
      dictContains (loadProviders idx l).providers X = false := by
  induction l with
  | nil => intro idx X _ hP; exact hP
  | cons p rest ih =>
    intro idx X hI hP
    unfold loadProviders
    by_cases hc : _check_name idx p.name kind_provider = true
    · rw [if_pos hc]
      obtain ⟨h1, _h2, _h3⟩ := (check_name_eq_true idx p.name kind_provider).mp hc
      have hb : (p.name == X) = false := by
        cases hb : (p.name == X) with
        | true =>
          have : p.name = X := eq_of_beq hb
          rw [this] at h1
          rw [h1] at hI
          exact absurd hI (by simp)
        | false => rfl
      apply ih
      · exact hI
      · show dictContains (dictInsert idx.providers p.name p) X = false
        rw [dictContains_insert, hP, hb]
        rfl
    · rw [if_neg hc]
      exact ih idx X hI hP

theorem load_ros
    (discover : Option (List String) → DiscoveryResult)
    (idx : CapabilityIndex) (arg : Option (List String)) :
    (load_from_ros_package_path discover idx arg).ros_package_path =
      effective_path idx arg := by
  simp only [load_from_ros_package_path]
  rw [loadSemanticInterfaces_ros, loadProviders_ros, loadInterfaces_ros]
  rfl

theorem load_unfold
    (discover : Option (List String) → DiscoveryResult)
    (idx : CapabilityIndex) (arg : Option (List String)) :
    load_from_ros_package_path discover idx arg =
      loadSemanticInterfaces
        (loadProviders
          (loadInterfaces
            ⟨effective_path idx arg, [], [], []⟩
            (discover (effective_path idx arg)).interface_files)
          (discover (effective_path idx arg)).provider_files)
        (discover (effective_path idx arg)).semantic_interface_files := rfl

theorem all_dictInsert {α : Type} (P : String × α → Bool)
    (d : List (String × α)) (k : String) (v : α)
    (hd : d.all P = true) (hv : P (k, v) = true) :
    (dictInsert d k v).all P = true := by
  unfold dictInsert
  by_cases hc : dictContains d k = true
  · rw [if_pos hc]
    rw [List.all_eq_true] at hd ⊢
    intro e he
    rw [List.mem_map] at he
    obtain ⟨a, ha, rfl⟩ := he
    by_cases hak : (a.1 == k) = true
    · rw [if_pos hak]
      exact hv
    · rw [if_neg hak]
      exact hd a ha
  · rw [if_neg hc]
    rw [List.all_append, hd]
    simp [hv]

theorem loadInterfaces_all_keys (l : List CapabilityInterface) :
    ∀ idx : CapabilityIndex,
      idx.interfaces.all (fun e => e.2.name == e.1) = true →
      (loadInterfaces idx l).interfaces.all (fun e => e.2.name == e.1) =
        true := by
  induction l with
  | nil => intro idx h; exact h
  | cons i rest ih =>
    intro idx h
    unfold loadInterfaces
    by_cases hc : _check_name idx i.name kind_interface = true
    · rw [if_pos hc]
      apply ih
      show (dictInsert idx.interfaces i.name i).all
        (fun e => e.2.name == e.1) = true
      apply all_dictInsert _ _ _ _ h
      simp
    · rw [if_neg hc]
      exact ih idx h

theorem loadProviders_all_keys (l : List CapabilityProvider) :
    ∀ idx : CapabilityIndex,
      idx.providers.all (fun e => e.2.name == e.1) = true →
      (loadProviders idx l).providers.all (fun e => e.2.name == e.1) =
        true := by
  induction l with
  | nil => intro idx h; exact h
  | cons p rest ih =>
    intro idx h
    unfold loadProviders
    by_cases hc : _check_name idx p.name kind_provider = true
    · rw [if_pos hc]
      apply ih
      show (dictInsert idx.providers p.name p).all
        (fun e => e.2.name == e.1) = true
      apply all_dictInsert _ _ _ _ h
      simp
    · rw [if_neg hc]
      exact ih idx h

theorem loadSemanticInterfaces_all_keys (l : List SemanticCapabilityInterface) :
    ∀ idx : CapabilityIndex,
      idx.semantic_interfaces.all (fun e => e.2.name == e.1) = true →
      (loadSemanticInterfaces idx l).semantic_interfaces.all
        (fun e => e.2.name == e.1) = true := by
  induction l with
  | nil => intro idx h; exact h
  | cons s rest ih =>
    intro idx h
    unfold loadSemanticInterfaces
    by_cases hc : _check_name idx s.name kind_semantic_interface = true
    · rw [if_pos hc]
      apply ih
      show (dictInsert idx.semantic_interfaces s.name s).all
        (fun e => e.2.name == e.1) = true
      apply all_dictInsert _ _ _ _ h
      simp
    · rw [if_neg hc]
      exact ih idx h

theorem wellKeyed_load
    (discover : Option (List String) → DiscoveryResult)
    (idx : CapabilityIndex) (arg : Option (List String)) :
    wellKeyed (load_from_ros_package_path discover idx arg) = true := by
  rw [load_unfold]
  unfold wellKeyed
  rw [loadSemanticInterfaces_interfaces, loadProviders_interfaces,
    loadSemanticInterfaces_providers]
  simp only [Bool.and_eq_true]
  refine ⟨⟨?_, ?_⟩, ?_⟩
  · exact loadInterfaces_all_keys _ _ rfl
  · apply loadProviders_all_keys
    rw [loadInterfaces_providers]
    rfl
  · apply loadSemanticInterfaces_all_keys
    rw [loadProviders_semantic, loadInterfaces_semantic]
    rfl

theorem loadInterfaces_lookup_stable (idx : CapabilityIndex)
    (l : List CapabilityInterface) (n : String)
    (h : dictContains idx.interfaces n = true) :
    dictLookup (loadInterfaces idx l).interfaces n =
      dictLookup idx.interfaces n := by
  induction l generalizing idx with
  | nil => rfl
  | cons i rest ih =>
    unfold loadInterfaces
    by_cases hc : _check_name idx i.name kind_interface = true
    · rw [if_pos hc]
      obtain ⟨h1, _h2, _h3⟩ :=
        (check_name_eq_true idx i.name kind_interface).mp hc
      have hb : (i.name == n) = false := by
        cases hb : (i.name == n) with
        | true =>
          have hpn : i.name = n := eq_of_beq hb
          rw [hpn] at h1
          rw [h1] at h
          exact absurd h (by simp)
        | false => rfl
      have hcont : dictContains (dictInsert idx.interfaces i.name i) n =
          true := by
        rw [dictContains_insert, h]
        rfl
      have hr := ih { idx with
        interfaces := dictInsert idx.interfaces i.name i } hcont
      rw [hr]
      show dictLookup (dictInsert idx.interfaces i.name i) n =
        dictLookup idx.interfaces n
      exact dictLookup_insert_ne _ _ _ _ hb
    · rw [if_neg hc]
      exact ih idx h

theorem loadProviders_lookup_stable (idx : CapabilityIndex)
    (l : List CapabilityProvider) (n : String)
    (h : dictContains idx.providers n = true) :
    dictLookup (loadProviders idx l).providers n =
      dictLookup idx.providers n := by
  induction l generalizing idx with
  | nil => rfl
  | cons p rest ih =>
    unfold loadProviders
    by_cases hc : _check_name idx p.name kind_provider = true
    · rw [if_pos hc]
      obtain ⟨_h1, h2, _h3⟩ :=
        (check_name_eq_true idx p.name kind_provider).mp hc
      have hb : (p.name == n) = false := by
        cases hb : (p.name == n) with
        | true =>
          have hpn : p.name = n := eq_of_beq hb
          rw [hpn] at h2
          rw [h2] at h
          exact absurd h (by simp)
        | false => rfl
      have hcont : dictContains (dictInsert idx.providers p.name p) n =
          true := by
        rw [dictContains_insert, h]
        rfl
      have hr := ih { idx with
        providers := dictInsert idx.providers p.name p } hcont
      rw [hr]
      show dictLookup (dictInsert idx.providers p.name p) n =
        dictLookup idx.providers n
      exact dictLookup_insert_ne _ _ _ _ hb
    · rw [if_neg hc]
      exact ih idx h

theorem loadSemanticInterfaces_lookup_stable (idx : CapabilityIndex)
    (l : List SemanticCapabilityInterface) (n : String)
    (h : dictContains idx.semantic_interfaces n = true) :
    dictLookup (loadSemanticInterfaces idx l).semantic_interfaces n =
      dictLookup idx.semantic_interfaces n := by
  induction l generalizing idx with
  | nil => rfl
  | cons s rest ih =>
    unfold loadSemanticInterfaces
    by_cases hc : _check_name idx s.name kind_semantic_interface = true
    · rw [if_pos hc]
      obtain ⟨_h1, _h2, h3⟩ :=
        (check_name_eq_true idx s.name kind_semantic_interface).mp hc
      have hb : (s.name == n) = false := by
        cases hb : (s.name == n) with
        | true =>
          have hpn : s.name = n := eq_of_beq hb
          rw [hpn] at h3
          rw [h3] at h
          exact absurd h (by simp)
        | false => rfl
      have hcont : dictContains
          (dictInsert idx.semantic_interfaces s.name s) n = true := by
        rw [dictContains_insert, h]
        rfl
      have hr := ih { idx with
        semantic_interfaces := dictInsert idx.semantic_interfaces s.name s }
        hcont
      rw [hr]
      show dictLookup (dictInsert idx.semantic_interfaces s.name s) n =
        dictLookup idx.semantic_interfaces n
      exact dictLookup_insert_ne _ _ _ _ hb
    · rw [if_neg hc]
      exact ih idx h

/-- Claim C1: after `construct` (initial load) or any
`load_from_ros_package_path` call (reload), no name occurs in more than one of
the three dictionaries — the interface, provider and semantic-interface key
sets are pairwise disjoint. -/
theorem C1_name_uniqueness
    (discover : Option (List String) → DiscoveryResult)
    (roots : Option (List String)) (idx : CapabilityIndex)
    (arg : Option (List String)) :
    namesDisjoint (construct discover roots) ∧
    namesDisjoint (load_from_ros_package_path discover idx arg) :=
  ⟨namesDisjoint_load discover ⟨roots, [], [], []⟩ roots,
   namesDisjoint_load discover idx arg⟩

/-- Claim C2 is false on the code at a concrete input: with two providers both
named `A` discovered in one reload, the providers dictionary keeps the earlier
record `⟨A, I1⟩`; the later record `⟨A, I2⟩` is not silently written over it,
because `_check_name` also consults the providers dictionary itself. -/
theorem C2_counterexample_overwrite :
    (load_from_ros_package_path discoverDupProviders emptyIndex
        none).providers = [("A", ⟨"A", "I1"⟩)] ∧
    (⟨"A", "I1"⟩ : CapabilityProvider) ≠ ⟨"A", "I2"⟩ :=
  ⟨rfl, by decide⟩

/-- Claim C2 amended: within a single kind — interfaces, providers, or
semantic interfaces — when two discovered records of the same kind share a
name in one reload, the later-processed record is rejected and skipped and
the earlier record is retained unchanged, because the uniqueness check
inspects all three mappings including the record's own mapping: once an entry
for a name exists in a kind's dictionary, no later record of that kind's pass
can alter it. -/
theorem C2_within_kind_first_wins (idx : CapabilityIndex)
    (li : List CapabilityInterface) (lp : List CapabilityProvider)
    (ls : List SemanticCapabilityInterface) (n : String) :
    (dictContains idx.interfaces n = true →
      dictLookup (loadInterfaces idx li).interfaces n =
        dictLookup idx.interfaces n) ∧
    (dictContains idx.providers n = true →
      dictLookup (loadProviders idx lp).providers n =
        dictLookup idx.providers n) ∧
    (dictContains idx.semantic_interfaces n = true →
      dictLookup (loadSemanticInterfaces idx ls).semantic_interfaces n =
        dictLookup idx.semantic_interfaces n) :=
  ⟨loadInterfaces_lookup_stable idx li n,
   loadProviders_lookup_stable idx lp n,
   loadSemanticInterfaces_lookup_stable idx ls n⟩

/-- Witness for the amended C2 at concrete inputs: an index already holding
the interface `A`, the provider `⟨B, I1⟩` and the semantic interface
`⟨C, R1⟩` is unchanged at those keys by processing later same-kind records
with the same names. -/
theorem C2_within_kind_witness :
    dictLookup (loadInterfaces idxAllKinds [⟨"A"⟩]).interfaces nA =
      dictLookup idxAllKinds.interfaces nA ∧
    dictLookup (loadProviders idxAllKinds [⟨"B", "I2"⟩]).providers nB =
      dictLookup idxAllKinds.providers nB ∧
    dictLookup (loadSemanticInterfaces idxAllKinds
        [⟨"C", "R2"⟩]).semantic_interfaces nC =
      dictLookup idxAllKinds.semantic_interfaces nC :=
  ⟨(C2_within_kind_first_wins idxAllKinds [⟨"A"⟩] [⟨"B", "I2"⟩]
      [⟨"C", "R2"⟩] nA).1 (by decide),
   (C2_within_kind_first_wins idxAllKinds [⟨"A"⟩] [⟨"B", "I2"⟩]
      [⟨"C", "R2"⟩] nB).2.1 (by decide),
   (C2_within_kind_first_wins idxAllKinds [⟨"A"⟩] [⟨"B", "I2"⟩]
      [⟨"C", "R2"⟩] nC).2.2 (by decide)⟩

/-- Claim C3 is false on the code at a concrete input: reloading with the
empty sequence as the override leaves the previously stored roots `["/a"]` in
place, because Python treats the empty list as falsy and falls back to the
stored value, instead of replacing the stored roots with the empty sequence. -/
theorem C3_counterexample_empty_override :
    (load_from_ros_package_path discoverNothing idxWithRootsA
        (some [])).ros_package_path = some ["/a"] ∧
    (some ["/a"] : Option (List String)) ≠ some [] :=
  ⟨rfl, by decide⟩

/-- Claim C3 amended: a present and non-empty (truthy) override replaces the
stored roots; an absent, `None`, or empty-sequence (falsy) argument reuses the
previously stored roots.  In particular a reload with the empty sequence
leaves the stored roots unchanged. -/
theorem C3_override_semantics
    (discover : Option (List String) → DiscoveryResult)
    (idx : CapabilityIndex) (arg : Option (List String)) :
    (pyFalsy arg = true →
      (load_from_ros_package_path discover idx arg).ros_package_path =
        idx.ros_package_path) ∧
    (pyFalsy arg = false →
      (load_from_ros_package_path discover idx arg).ros_package_path =
        arg) := by
  constructor
  · intro h
    rw [load_ros]
    simp [effective_path, h]
  · intro h
    rw [load_ros]
    simp [effective_path, h]

/-- Witness for the amended C3 at concrete inputs: a reload with no override
keeps the stored roots `["/a"]`, and a reload with the truthy override
`["/b"]` replaces them. -/
theorem C3_override_witness :
    (load_from_ros_package_path discoverNothing idxWithRootsA
        none).ros_package_path = some ["/a"] ∧
    (load_from_ros_package_path discoverNothing idxWithRootsA
        (some ["/b"])).ros_package_path = some ["/b"] :=
  ⟨((C3_override_semantics discoverNothing idxWithRootsA none).1
      (by decide)).trans rfl,
   (C3_override_semantics discoverNothing idxWithRootsA (some ["/b"])).2
      (by decide)⟩

/-- Claim C4: when one reload's discovery yields both an interface named X and
a provider named X, after the reload the interfaces dictionary contains X and
the providers dictionary does not — cross-kind collisions resolve
first-writer-wins in the fixed order interfaces, providers, semantic
interfaces. -/
theorem C4_first_kind_wins
    (discover : Option (List String) → DiscoveryResult)
    (idx : CapabilityIndex) (arg : Option (List String)) (X : String)
    (hi : ((discover (effective_path idx arg)).interface_files.any
      (fun i => i.name == X)) = true)
    (_hp : ((discover (effective_path idx arg)).provider_files.any
      (fun p => p.name == X)) = true) :
    dictContains
      (load_from_ros_package_path discover idx arg).interfaces X = true ∧
    dictContains
      (load_from_ros_package_path discover idx arg).providers X = false := by
  have hI : dictContains
      (loadInterfaces ⟨effective_path idx arg, [], [], []⟩
        (discover (effective_path idx arg)).interface_files).interfaces X =
      true :=
    loadInterfaces_contains_of_any _ _ _ rfl rfl hi
  have hP0 : dictContains
      (loadInterfaces ⟨effective_path idx arg, [], [], []⟩
        (discover (effective_path idx arg)).interface_files).providers X =
      false := by
    rw [loadInterfaces_providers]
    rfl
  constructor
  · rw [load_unfold, loadSemanticInterfaces_interfaces,
      loadProviders_interfaces]
    exact hI
  · rw [load_unfold, loadSemanticInterfaces_providers]
    exact loadProviders_blocked _ _ _ hI hP0

/-- Witness for C4 at the collision fixture of the design document: discovery
yields an interface `Minimal` and a provider `Minimal`; after the load the
interface name is present and no provider of that name exists. -/
theorem C4_first_kind_wins_witness :
    dictContains (load_from_ros_package_path discoverCollision emptyIndex
        none).interfaces nMinimal = true ∧
    dictContains (load_from_ros_package_path discoverCollision emptyIndex
        none).providers nMinimal = false :=
  C4_first_kind_wins discoverCollision emptyIndex none nMinimal
    (by decide) (by decide)

/-- Claim C6: a record whose name fails `_check_name` is skipped — it is
inserted into no dictionary and the index is unchanged by it — and the loop
continues processing all remaining records exactly as it would have without
the colliding record; a collision never aborts the pass. -/
theorem C6_skip_and_continue (idx : CapabilityIndex)
    (i : CapabilityInterface) (li : List CapabilityInterface)
    (p : CapabilityProvider) (lp : List CapabilityProvider)
    (s : SemanticCapabilityInterface)
    (ls : List SemanticCapabilityInterface) :
    (_check_name idx i.name kind_interface = false →
      loadInterfaces idx (i :: li) = loadInterfaces idx li) ∧
    (_check_name idx p.name kind_provider = false →
      loadProviders idx (p :: lp) = loadProviders idx lp) ∧
    (_check_name idx s.name kind_semantic_interface = false →
      loadSemanticInterfaces idx (s :: ls) =
        loadSemanticInterfaces idx ls) := by
  refine ⟨?_, ?_, ?_⟩
  · intro h
    show (if _check_name idx i.name kind_interface = true then
        loadInterfaces
          { idx with interfaces := dictInsert idx.interfaces i.name i } li
      else loadInterfaces idx li) = loadInterfaces idx li
    rw [h, if_neg (by simp)]
  · intro h
    show (if _check_name idx p.name kind_provider = true then
        loadProviders
          { idx with providers := dictInsert idx.providers p.name p } lp
      else loadProviders idx lp) = loadProviders idx lp
    rw [h, if_neg (by simp)]
  · intro h
    show (if _check_name idx s.name kind_semantic_interface = true then
        loadSemanticInterfaces
          { idx with semantic_interfaces :=
              dictInsert idx.semantic_interfaces s.name s } ls
      else loadSemanticInterfaces idx ls) = loadSemanticInterfaces idx ls
    rw [h, if_neg (by simp)]

/-- Witness for C6 at a concrete input: on an index already holding the
interface name `A`, a colliding interface, provider and semantic interface
record are each skipped while the rest of the pass proceeds. -/
theorem C6_skip_witness :
    loadInterfaces idxWithInterfaceA [⟨"A"⟩] =
      loadInterfaces idxWithInterfaceA [] ∧
    loadProviders idxWithInterfaceA [⟨"A", "I1"⟩] =
      loadProviders idxWithInterfaceA [] ∧
    loadSemanticInterfaces idxWithInterfaceA [⟨"A", "R1"⟩] =
      loadSemanticInterfaces idxWithInterfaceA [] := by
  obtain ⟨h1, h2, h3⟩ := C6_skip_and_continue idxWithInterfaceA
    ⟨"A"⟩ [] ⟨"A", "I1"⟩ [] ⟨"A", "R1"⟩ []
  exact ⟨h1 (by decide), h2 (by decide), h3 (by decide)⟩

/-- Claim C7 against the code as written: all three stub operations raise
`TypeError`, because `raise NotImplemented` raises the non-exception sentinel
`NotImplemented`, which Python rejects with a `TypeError`, not the
`NotImplementedError` the documentation intends. -/
theorem C7_stubs_raise_TypeError (idx : CapabilityIndex) (we : Bool) :
    verify_tree idx = Except.error PyExc.TypeError ∧
    view_capabilities_as_dot idx we = Except.error PyExc.TypeError ∧
    advertize_services idx = Except.error PyExc.TypeError ∧
    PyExc.TypeError ≠ PyExc.NotImplementedError :=
  ⟨rfl, rfl, rfl, by decide⟩

/-- Claim C8: `get_providers` returns exactly the stored providers whose
`implements` field equals the queried name by exact string match, and the
empty list when none match; it is a total function and never an error. -/
theorem C8_get_providers_spec (idx : CapabilityIndex) (n : String) :
    (∀ p : CapabilityProvider,
      p ∈ get_providers idx n ↔
        (p ∈ dictValues idx.providers ∧ p.implements = n)) ∧
    (((dictValues idx.providers).all (fun p => !(p.implements == n))) =
        true →
      get_providers idx n = []) := by
  constructor
  · intro p
    unfold get_providers
    rw [List.mem_filter]
    constructor
    · rintro ⟨h1, h2⟩
      exact ⟨h1, eq_of_beq h2⟩
    · rintro ⟨h1, h2⟩
      refine ⟨h1, ?_⟩
      rw [h2]
      simp
  · intro h
    unfold get_providers
    rw [List.filter_eq_nil_iff]
    intro p hp
    have hall := List.all_eq_true.mp h p hp
    simp at hall ⊢
    exact hall

/-- Witness for C8 on the loaded `discoverMinimal` fixture: querying an
interface name that no provider implements yields the empty list. -/
theorem C8_get_providers_witness :
    get_providers exampleIndex nNoSuch = [] :=
  (C8_get_providers_spec exampleIndex nNoSuch).2 (by decide)

/-- Claim C9: reloading twice in succession with the same discovery
collaborator and no override yields the same three dictionaries as a single
reload — each reload clears all three dictionaries before repopulating, so it
replaces prior state rather than merging with it. -/
theorem C9_idempotent_reload
    (discover : Option (List String) → DiscoveryResult)
    (idx : CapabilityIndex) :
    (load_from_ros_package_path discover
        (load_from_ros_package_path discover idx none) none).interfaces =
      (load_from_ros_package_path discover idx none).interfaces ∧
    (load_from_ros_package_path discover
        (load_from_ros_package_path discover idx none) none).providers =
      (load_from_ros_package_path discover idx none).providers ∧
    (load_from_ros_package_path discover
        (load_from_ros_package_path discover idx none)
        none).semantic_interfaces =
      (load_from_ros_package_path discover idx none).semantic_interfaces := by
  have hep : effective_path
      (load_from_ros_package_path discover idx none) none =
      effective_path idx none := by
    show (load_from_ros_package_path discover idx none).ros_package_path =
      effective_path idx none
    exact load_ros discover idx none
  have h2 : load_from_ros_package_path discover
      (load_from_ros_package_path discover idx none) none =
      load_from_ros_package_path discover idx none := by
    rw [load_unfold discover (load_from_ros_package_path discover idx none)
      none, hep, load_unfold discover idx none]
  exact ⟨by rw [h2], by rw [h2], by rw [h2]⟩

/-- Claim C10: after construction and after every reload, each dictionary
keys every stored record by that record's own `name` field. -/
theorem C10_entries_keyed_by_name
    (discover : Option (List String) → DiscoveryResult)
    (roots : Option (List String)) (idx : CapabilityIndex)
    (arg : Option (List String)) :
    wellKeyed (construct discover roots) = true ∧
    wellKeyed (load_from_ros_package_path discover idx arg) = true :=
  ⟨wellKeyed_load discover ⟨roots, [], [], []⟩ roots,
   wellKeyed_load discover idx arg⟩
